/-
  Verification of the virtual git filesystem and smart-protocol serving
  layer: the SqliteFS persistent store (fs-adapter), the MemFS volatile
  store (memfs), and the GitCloneService repository builder and protocol
  handlers.

  Modelling conventions.
  * A filesystem path is represented by the list of its slash-separated
    segments: the TypeScript string "/a/b" is the list ["", "a", "b"],
    "a//b" is ["a", "", "b"], the empty string is [""].  Segments never
    contain a slash, which makes the representation bijective with raw
    path strings, and the regex-based normalizations of the source become
    operations that drop leading or trailing empty segments.
  * Bytes are natural numbers (a Uint8Array cell is 0..255); base64 text
    is a list of characters.  btoa and atob are implemented exactly as
    the standard algorithm the JavaScript builtins follow.
  * Each SQLite row (path, parent_path, data, is_dir, mtime) becomes an
    FsEntry stored in an association list keyed by path, INSERT OR
    REPLACE is aset, INSERT OR IGNORE is aaddIfAbsent.
  * Mutating operations return the state paired with an optional error so
    that a throw before a mutation provably leaves the state unchanged;
    read-only operations return Except.  Date.now() is passed in as an
    explicit parameter where the source stores it.
  * The external git-plumbing collaborator (isomorphic-git) is out of
    scope of the repository; where a claim needs it, it is a parameter
    (the Plumbing structure, or the commit/tree maps of GitRepo).
-/
import Mathlib

set_option linter.unusedVariables false

/-! ## Byte and base64 encoding (SqliteFS stores binary data as base64 text) -/

/-- The base64 alphabet used by btoa and atob. -/
def b64chars : List Char :=
  "ABCDEFGHIJKLMNOPQRSTUVWXYZabcdefghijklmnopqrstuvwxyz0123456789+/".toList

/-- Character for one 6-bit value. -/
def sextetChar (n : Nat) : Char := b64chars.getD n 'A'

/-- 6-bit value of one base64 character. -/
def sextetVal (c : Char) : Nat := b64chars.indexOf c

/-- The btoa builtin: bytes to base64 text, 3 bytes to 4 characters with
trailing padding by the character for 61. -/
def btoa : List Nat → List Char
  | [] => []
  | [a] => [sextetChar (a / 4), sextetChar (a % 4 * 16), '=', '=']
  | [a, b] => [sextetChar (a / 4), sextetChar (a % 4 * 16 + b / 16), sextetChar (b % 16 * 4), '=']
  | a :: b :: c :: rest =>
    sextetChar (a / 4) :: sextetChar (a % 4 * 16 + b / 16) ::
    sextetChar (b % 16 * 4 + c / 64) :: sextetChar (c % 64) :: btoa rest

/-- Decode one base64 quadruple, honouring padding. -/
def atobQuad (c1 c2 c3 c4 : Char) : List Nat :=
  if c3 = '=' then [sextetVal c1 * 4 + sextetVal c2 / 16]
  else if c4 = '=' then
    [sextetVal c1 * 4 + sextetVal c2 / 16, sextetVal c2 % 16 * 16 + sextetVal c3 / 4]
  else
    [sextetVal c1 * 4 + sextetVal c2 / 16, sextetVal c2 % 16 * 16 + sextetVal c3 / 4,
     sextetVal c3 % 4 * 64 + sextetVal c4]

/-- The atob builtin on well-formed base64 text: four characters at a time. -/
def atob : List Char → List Nat
  | c1 :: c2 :: c3 :: c4 :: rest => atobQuad c1 c2 c3 c4 ++ atob rest
  | _ => []

/-! ## Paths and error kinds -/

/-- A path, as the list of slash-separated segments of the raw string. -/
abbrev FsPath := List String

/-- The normalized key of the root: the empty string has one empty segment. -/
def rootKey : FsPath := [""]

/-- path.replace of leading slashes by nothing: drop leading empty
segments; a string of only slashes collapses to the empty string. -/
def normLead (p : FsPath) : FsPath :=
  let q := p.dropWhile (fun s => s = "")
  if q = [] then rootKey else q

/-- Drop trailing empty segments (trailing slashes). -/
def dropTrail (p : FsPath) : FsPath := (p.reverse.dropWhile (fun s => s = "")).reverse

/-- path.replace of leading and trailing slashes by nothing. -/
def normBoth (p : FsPath) : FsPath :=
  let q := dropTrail (p.dropWhile (fun s => s = ""))
  if q = [] then rootKey else q

/-- Error kinds thrown by the two stores.  rootWrite and rootRemove are the
plain Error throws guarding the root path; recursionLimit is not a source
error, it marks exhaustion of the modelling fuel of the recursive copy. -/
inductive FsErr where
  | enoent | eisdir | eperm | eexist | enotdir | enotempty
  | rootWrite | rootRemove | sizeExceeded | recursionLimit
deriving DecidableEq, Repr

/-- File kind reported by stat. -/
inductive StatType where
  | file | dir
deriving DecidableEq, Repr

/-- Result of stat/lstat (the advisory fields the claims mention). -/
structure StatInfo where
  type : StatType
  mode : Nat
  size : Nat
  mtimeMs : Nat
deriving DecidableEq, Repr

/-! ## Association-list store primitives -/

/-- Lookup by path key. -/
def alook {α : Type} : List (FsPath × α) → FsPath → Option α
  | [], _ => none
  | kv :: rest, q => if kv.1 = q then some kv.2 else alook rest q

/-- INSERT OR REPLACE / Map.set. -/
def aset {α : Type} : List (FsPath × α) → FsPath → α → List (FsPath × α)
  | [], q, v => [(q, v)]
  | kv :: rest, q, v => if kv.1 = q then (q, v) :: rest else kv :: aset rest q v

/-- INSERT OR IGNORE. -/
def aaddIfAbsent {α : Type} (st : List (FsPath × α)) (q : FsPath) (v : α) : List (FsPath × α) :=
  match alook st q with
  | some _ => st
  | none => (q, v) :: st

/-! ## SqliteFS: the persistent store (fs-adapter, is_dir flavour) -/

/-- One row of the git_objects table: parent_path, data (base64 text),
is_dir, mtime. -/
structure FsEntry where
  parentPath : FsPath
  data : List Char
  isDir : Bool
  mtime : Nat
deriving DecidableEq, Repr

/-- The table, keyed by path. -/
abbrev SqlSt := List (FsPath × FsEntry)

/-- 900 KB: the per-object ceiling MAX_OBJECT_SIZE. -/
def MAX_OBJECT_SIZE : Nat := 900 * 1024

/-- init(): fresh table with the root directory row
(path '', parent_path '', data '', is_dir 1). -/
def sqlInit (now : Nat) : SqlSt := [(rootKey, ⟨rootKey, [], true, now⟩)]

/-- parent_path stored for a key: all but the last segment, the root for
a single-segment key (slice(0,-1).join or the empty string). -/
def parentKeyOf (k : FsPath) : FsPath := if k.length ≤ 1 then rootKey else k.dropLast

/-- The loop of writeFile that inserts-if-absent every ancestor directory
of the (length greater than one) key n, top-down. -/
def ancestorDirs (st : SqlSt) (now : Nat) (n : FsPath) : SqlSt :=
  (List.range (n.length - 1)).foldl
    (fun s i =>
      aaddIfAbsent s (n.take (i + 1)) ⟨if i = 0 then rootKey else n.take i, [], true, now⟩) st

/-- The directory test of writeFile on an existing row:
existing[0]?.is_dir === 1. -/
def dirAtB (st : SqlSt) (n : FsPath) : Bool :=
  match alook st n with
  | some e => e.isDir
  | none => false

/-- SqliteFS.writeFile: reject the root, then the size ceiling on the raw
byte length, then a directory at the key; otherwise synthesize missing
ancestors and INSERT OR REPLACE the base64-encoded row. -/
def sqlWriteFile (st : SqlSt) (now : Nat) (p : FsPath) (bytes : List Nat) : SqlSt × Option FsErr :=
  let n := normLead p
  if n = rootKey then (st, some FsErr.rootWrite)
  else if MAX_OBJECT_SIZE < bytes.length then (st, some FsErr.sizeExceeded)
  else if dirAtB st n then (st, some FsErr.eisdir)
  else
    let parentPath := if 1 < n.length then n.dropLast else rootKey
    let st1 := if 1 < n.length then ancestorDirs st now n else st
    let content := if bytes = [] then [] else btoa bytes
    (aset st1 n ⟨parentPath, content, false, now⟩, none)

/-- SqliteFS.readFile: ENOENT if absent, EISDIR on a directory, empty
bytes for an empty data field, otherwise base64-decode. -/
def sqlReadFile (st : SqlSt) (p : FsPath) : Except FsErr (List Nat) :=
  let n := normLead p
  match alook st n with
  | none => .error .enoent
  | some e =>
    if e.isDir then .error .eisdir
    else if e.data = [] then .ok []
    else .ok (atob e.data)

/-- SqliteFS.unlink: ENOENT if absent, EPERM on a directory, else delete
the row (the DELETE is conditioned on is_dir = 0 as in the source). -/
def sqlUnlink (st : SqlSt) (p : FsPath) : SqlSt × Option FsErr :=
  let n := normLead p
  match alook st n with
  | none => (st, some FsErr.enoent)
  | some e =>
    if e.isDir then (st, some FsErr.eperm)
    else (st.filter (fun kv => if kv.1 = n ∧ kv.2.isDir = false then false else true), none)

/-- SqliteFS.readdir: ENOENT unless the key is a directory row, then map
every row whose parent_path equals the key to the last segment of its
path (the root row itself satisfies this for the root listing). -/
def sqlReaddir (st : SqlSt) (p : FsPath) : Except FsErr (List String) :=
  let n := normBoth p
  match alook st n with
  | none => .error .enoent
  | some e =>
    if e.isDir = false then .error .enoent
    else .ok ((st.filter (fun kv => decide (kv.2.parentPath = n))).map
      (fun kv => kv.1.getLastD ""))

/-- The parent check of mkdir: a single-segment key (a direct child of
the root) needs no check, otherwise the parent key must hold a directory
row. -/
def mkdirParentOkB (st : SqlSt) (n : FsPath) : Bool :=
  (n.length == 1) ||
    (match alook st n.dropLast with
     | some pe => pe.isDir
     | none => false)

/-- SqliteFS.mkdir: silent on the root; ENOENT when a multi-segment key
has no directory at its parent; silent when a directory already exists;
EEXIST over a file; otherwise insert the directory row. -/
def sqlMkdir (st : SqlSt) (now : Nat) (p : FsPath) : SqlSt × Option FsErr :=
  let n := normBoth p
  if n = rootKey then (st, none)
  else
    if mkdirParentOkB st n = false then (st, some FsErr.enoent)
    else match alook st n with
      | some e => if e.isDir then (st, none) else (st, some FsErr.eexist)
      | none =>
        let parentPath := if 1 < n.length then n.dropLast else rootKey
        (aaddIfAbsent st n ⟨parentPath, [], true, now⟩, none)

/-- SqliteFS.rmdir: forbidden on the root, ENOENT if absent, ENOTDIR on a
file, ENOTEMPTY when any strictly deeper path exists, else delete. -/
def sqlRmdir (st : SqlSt) (p : FsPath) : SqlSt × Option FsErr :=
  let n := normBoth p
  if n = rootKey then (st, some FsErr.rootRemove)
  else match alook st n with
    | none => (st, some FsErr.enoent)
    | some e =>
      if e.isDir = false then (st, some FsErr.enotdir)
      else if st.any (fun kv =>
          decide (kv.1.take n.length = n) && decide (n.length < kv.1.length)) then
        (st, some FsErr.enotempty)
      else (st.filter (fun kv => if kv.1 = n then false else true), none)

/-- SqliteFS.stat: ENOENT if absent; directory rows report dir kind; file
rows report an approximate size, three quarters of the base64 length. -/
def sqlStat (st : SqlSt) (p : FsPath) : Except FsErr StatInfo :=
  let n := normLead p
  match alook st n with
  | none => .error .enoent
  | some e =>
    if e.isDir then .ok ⟨.dir, 0o040755, 0, e.mtime⟩
    else .ok ⟨.file, 0o100644, if e.data = [] then 0 else 3 * e.data.length / 4, e.mtime⟩

/-! ## MemFS: the volatile store (messages.tsx / memfs) -/

/-- The in-memory map of the volatile store: path key to raw bytes. -/
abbrev MemSt := List (FsPath × List Nat)

/-- The empty volatile store. -/
def memEmpty : MemSt := []

/-- MemFS normalization: strip one leading slash when present
(path.slice of 1 when the string starts with a slash). -/
def memNorm (p : FsPath) : FsPath :=
  if 2 ≤ p.length ∧ p.head? = some "" then p.tail else p

/-- MemFS.writeFile: unconditional Map.set, no errors, no ceiling. -/
def memWriteFile (st : MemSt) (p : FsPath) (bytes : List Nat) : MemSt :=
  aset st (memNorm p) bytes

/-- MemFS.readFile: ENOENT when the key is absent. -/
def memReadFile (st : MemSt) (p : FsPath) : Except FsErr (List Nat) :=
  match alook st (memNorm p) with
  | none => .error .enoent
  | some b => .ok b

/-- MemFS.readdir normalization: the literal string slash becomes the
empty string, otherwise one leading slash is stripped. -/
def memNormDir (p : FsPath) : FsPath :=
  if p = ["", ""] then rootKey else memNorm p

/-- For a normalized directory key n, the immediate-child name a stored
key contributes to the readdir listing, when nonempty. -/
def memChildPick (n : FsPath) (k : FsPath) : Option String :=
  if n = rootKey then
    match k.head? with
    | some b => if b = "" then none else some b
    | none => none
  else if decide (k.take n.length = n) && decide (n.length < k.length) then
    if k.getD n.length "" = "" then none else some (k.getD n.length "")
  else none

/-- MemFS.readdir: collect first segments of keys under the prefix into a
set; never throws, a path with no descendants lists as empty. -/
def memReaddir (st : MemSt) (p : FsPath) : List String :=
  ((st.map (fun kv => kv.1)).filterMap (memChildPick (memNormDir p))).dedup

/-- MemFS.stat: a stored key is a file; otherwise a directory exactly when
some stored key extends the prefix; else ENOENT.  Modification time is
Date.now() in the source and advisory, modelled as zero. -/
def memStat (st : MemSt) (p : FsPath) : Except FsErr StatInfo :=
  let n := memNorm p
  match alook st n with
  | some b => .ok ⟨.file, 0o100644, b.length, 0⟩
  | none =>
    if st.any (fun kv =>
        if n = rootKey then true
        else decide (kv.1.take n.length = n) && decide (n.length < kv.1.length)) then
      .ok ⟨.dir, 0o040755, 0, 0⟩
    else .error .enoent

/-- MemFS.mkdir: a no-op taking no path, always succeeding. -/
def memMkdir (st : MemSt) : MemSt × Option FsErr := (st, none)

/-- MemFS.rmdir: a no-op taking no path, always succeeding. -/
def memRmdir (st : MemSt) : MemSt × Option FsErr := (st, none)

/-- MemFS.unlink: Map.delete. -/
def memUnlink (st : MemSt) (p : FsPath) : MemSt :=
  st.filter (fun kv => if kv.1 = memNorm p then false else true)

/-! ## The git object graph and handleUploadPack (GitCloneService) -/

/-- One entry of a tree object as readTree returns it: object id and
whether the entry is itself a tree. -/
structure GitTreeEntry where
  oid : String
  isTree : Bool
deriving DecidableEq, Repr

/-- A commit object as readCommit returns it: tree id and parent ids. -/
structure GitCommit where
  tree : String
  parents : List String
deriving DecidableEq, Repr

/-- The repository as the protocol handlers observe it through the
plumbing collaborator: the resolution of HEAD (none when resolveRef
throws), and the partial maps readCommit and readTree. -/
structure GitRepo where
  head : Option String
  commits : String → Option GitCommit
  trees : String → Option (List GitTreeEntry)

/- The recursive collectTreeObjects of handleUploadPack: push the tree
id, then process its entries in order, pushing every entry id and
recursing into subtree entries.  The source recursion is unbounded, so a
fuel argument drives the model; exhausted fuel yields none. -/
mutual

def collectTree (g : GitRepo) (fuel : Nat) (t : String) : Option (List String) :=
  match fuel with
  | 0 => none
  | f + 1 =>
    match g.trees t with
    | none => none
    | some es =>
      match collectEntries g f es with
      | none => none
      | some subs => some (t :: subs)
termination_by (fuel, 0)

def collectEntries (g : GitRepo) (fuel : Nat) (es : List GitTreeEntry) : Option (List String) :=
  match es with
  | [] => some []
  | e :: rest =>
    match (if e.isTree then collectTree g fuel e.oid else some []) with
    | none => none
    | some sub =>
      match collectEntries g fuel rest with
      | none => none
      | some tail => some (e.oid :: (sub ++ tail))
termination_by (fuel, es.length + 1)

end

/-- The object-id list handleUploadPack hands to the pack builder:
resolve HEAD, read its commit, seed the array with the head id and the
commit tree id, then append the recursive walk (which pushes the root
tree id a second time).  Parent commits are never consulted. -/
def uploadPackObjects (g : GitRepo) (fuel : Nat) : Option (List String) :=
  match g.head with
  | none => none
  | some hd =>
    match g.commits hd with
    | none => none
    | some c =>
      match collectTree g fuel c.tree with
      | none => none
      | some walk => some (hd :: c.tree :: walk)

/-- handleUploadPack: build the object list, request a pack for exactly
that list, and wrap the pack bytes in a single sideband frame whose first
byte is the channel-1 marker. -/
def handleUploadPack (g : GitRepo) (fuel : Nat)
    (pack : List String → Option (List Nat)) : Option (List Nat) :=
  match uploadPackObjects g fuel with
  | none => none
  | some oids =>
    match pack oids with
    | none => none
    | some pf => some (1 :: pf)

/-- Object ids reachable through tree entries starting from a tree id:
the transitive closure the recursive walk can touch.  Parent commits are
never related to the starting tree by this relation. -/
inductive TReach (g : GitRepo) : String → String → Prop
  | refl (t : String) : TReach g t t
  | step (t : String) (es : List GitTreeEntry) (e : GitTreeEntry) (x : String) :
      g.trees t = some es → e ∈ es → TReach g e.oid x → TReach g t x

/-- The deduplicated reachable closure of HEAD exactly as the claim and
the specification describe it: the HEAD commit, transitively every parent
commit, every commit's tree, and recursively every tree-entry object.
This is the specification-side definition the code is compared against. -/
inductive Reachable (g : GitRepo) : String → Prop
  | isHead (h : String) : g.head = some h → Reachable g h
  | parent (c : String) (co : GitCommit) (p : String) :
      Reachable g c → g.commits c = some co → p ∈ co.parents → Reachable g p
  | commitTree (c : String) (co : GitCommit) :
      Reachable g c → g.commits c = some co → Reachable g co.tree
  | entry (t : String) (es : List GitTreeEntry) (e : GitTreeEntry) :
      Reachable g t → g.trees t = some es → e ∈ es → Reachable g e.oid

/-- A two-commit repository: HEAD is c2 with parent c1; the tree of c2
holds the single blob b1; the tree of c1 is empty. -/
def gEx : GitRepo where
  head := some "c2"
  commits := fun s =>
    if s = "c2" then some ⟨"t2", ["c1"]⟩
    else if s = "c1" then some ⟨"t1", []⟩
    else none
  trees := fun s =>
    if s = "t2" then some [⟨"b1", false⟩]
    else if s = "t1" then some []
    else none

/-! ## Pkt-line framing (formatPacketLine, handleInfoRefs) -/

/-- One lowercase hexadecimal digit. -/
def hexDigit (n : Nat) : Char := "0123456789abcdef".toList.getD n '0'

/-- Number.toString(16): minimal lowercase hexadecimal representation. -/
def toHex (n : Nat) : List Char :=
  if h : n < 16 then [hexDigit n]
  else toHex (n / 16) ++ [hexDigit (n % 16)]
decreasing_by exact Nat.div_lt_self (by omega) (by omega)

/-- padStart(4, '0'): left-pad to four characters, never truncating. -/
def pad4 (ds : List Char) : List Char := List.replicate (4 - ds.length) '0' ++ ds

/-- Value of one hexadecimal digit character. -/
def hexVal (c : Char) : Nat := "0123456789abcdef".toList.indexOf c

/-- Left fold of hexadecimal digits onto an accumulator. -/
def decodeHexAux : List Char → Nat → Nat
  | [], acc => acc
  | c :: cs, acc => decodeHexAux cs (acc * 16 + hexVal c)

/-- Decode a hexadecimal digit string. -/
def decodeHex (ds : List Char) : Nat := decodeHexAux ds 0

/-- formatPacketLine: four-character lowercase-hex prefix holding the
payload length plus four, then the payload.  Characters stand for bytes
(every emitted payload is ASCII). -/
def formatPacketLine (data : List Char) : List Char :=
  pad4 (toHex (data.length + 4)) ++ data

/-- The flush frame: four zero characters. -/
def flushPkt : List Char := ['0', '0', '0', '0']

/-! ## The external plumbing collaborator and the repository builder -/

/-- The capabilities the builder and the protocol handlers consume from
the external git-plumbing library, each as an explicit function; errors
are opaque strings.  writeRefMain is the force-update of refs/heads/main. -/
structure Plumbing where
  init : MemSt → Except String MemSt
  addAll : MemSt → Except String MemSt
  commitTemplate : MemSt → Except String (String × MemSt)
  resolveHeadMem : MemSt → Except String String
  resolveHeadSqlite : SqlSt → Except String String
  writeRefMain : MemSt → String → Except String MemSt
  listBranches : MemSt → Except String (List String)
  resolveBranch : MemSt → String → Except String String

/-- A template snapshot: path to byte content. -/
abbrev Template := List (FsPath × List Nat)

/-- A wrapped failure of buildRepository (the single rethrown Error).
The inner value is a filesystem error kind or an opaque plumbing error. -/
structure BuildFailure where
  inner : FsErr ⊕ String
deriving DecidableEq

/-- A wrapped failure of handleInfoRefs. -/
structure RefsFailure where
  inner : String
deriving DecidableEq

/-- hasGitRepository: the source calls the async readdir of the agent
store inside try/catch but never awaits the returned promise, so a
rejection is not observable there and the check reports true for every
store; the catch branch is unreachable. -/
def hasGitRepository (st : SqlSt) : Bool := true

/- The recursive copyDirectory from the agent SqliteFS into the MemFS:
list the directory (failures propagate), then per entry stat, copy a file
or recurse into a directory, swallowing any per-entry failure. -/
mutual

def copyDirectory (src : SqlSt) (fuel : Nat) (tgt : MemSt) (dirPath : FsPath) :
    Except FsErr MemSt :=
  match fuel with
  | 0 => .error .recursionLimit
  | f + 1 =>
    match sqlReaddir src dirPath with
    | .error e => .error e
    | .ok entries => .ok (copyEntries src f tgt dirPath entries)
termination_by (fuel, 0)

def copyEntries (src : SqlSt) (fuel : Nat) (tgt : MemSt) (dirPath : FsPath)
    (names : List String) : MemSt :=
  match names with
  | [] => tgt
  | name :: rest =>
    let full := dirPath ++ [name]
    let tgt2 :=
      match sqlStat src full with
      | .error _ => tgt
      | .ok s =>
        if s.type = StatType.file then
          match sqlReadFile src full with
          | .error _ => tgt
          | .ok data => memWriteFile tgt full data
        else
          match copyDirectory src fuel tgt full with
          | .error _ => tgt
          | .ok t2 => t2
    copyEntries src fuel tgt2 dirPath rest
termination_by (fuel, names.length + 1)

end

/-- Step 1 and 2 of buildRepository after init: when a template snapshot
is present, write every template file, stage everything and create the
base commit; otherwise leave the store as is. -/
def templatePhase (p : Plumbing) (template : Option Template) (fs : MemSt) :
    Except String MemSt :=
  match template with
  | none => .ok fs
  | some files =>
    match p.addAll (files.foldl (fun t f => memWriteFile t f.1 f.2) fs) with
    | .error e => .error e
    | .ok fs3 =>
      match p.commitTemplate fs3 with
      | .error e => .error e
      | .ok (_, fs4) => .ok fs4

/-- GitCloneService.buildRepository: init a fresh MemFS, lay down the
template commit, copy the agent git namespace (the always-true history
check makes this step unconditional), then best-effort repoint: a failure
of resolving the agent HEAD or of the ref write is logged and swallowed,
every other failure aborts the whole build as one wrapped error. -/
def buildRepository (p : Plumbing) (fuel : Nat) (template : Option Template)
    (agentFS : SqlSt) : Except BuildFailure MemSt :=
  match p.init memEmpty with
  | .error e => .error ⟨.inr e⟩
  | .ok fs1 =>
    match templatePhase p template fs1 with
    | .error e => .error ⟨.inr e⟩
    | .ok fs4 =>
      if hasGitRepository agentFS then
        match copyDirectory agentFS fuel fs4 ["", ".git"] with
        | .error e => .error ⟨.inl e⟩
        | .ok fs5 =>
          match p.resolveHeadSqlite agentFS with
          | .error _ => .ok fs5
          | .ok oid =>
            match p.writeRefMain fs5 oid with
            | .error _ => .ok fs5
            | .ok fs6 => .ok fs6
      else .ok fs4

/-- The HEAD advertisement line: head id, the literal HEAD name, a null
separator and the capability string, newline-terminated. -/
def headLineOf (head : String) : List Char :=
  head.toList ++ " HEAD".toList ++ [Char.ofNat 0] ++
    "side-band-64k thin-pack ofs-delta agent=git/isomorphic-git\n".toList

/-- One branch advertisement line. -/
def branchLineOf (oid branch : String) : List Char :=
  oid.toList ++ " refs/heads/".toList ++ branch.toList ++ ['\n']

/-- The loop over listBranches: resolve each branch and append its framed
line; the first resolution failure aborts. -/
def branchesLines (p : Plumbing) (fs : MemSt) : Except String (List Char) :=
  match p.listBranches fs with
  | .error e => .error e
  | .ok bs =>
    bs.foldlM
      (fun acc b =>
        match p.resolveBranch fs b with
        | .error e => .error e
        | .ok oid => .ok (acc ++ formatPacketLine (branchLineOf oid b)))
      []

/-- GitCloneService.handleInfoRefs: resolve HEAD (a failure is rethrown
wrapped), emit the hardcoded service announcement with its flush, the
framed HEAD line, the framed branch lines, and the terminating flush. -/
def handleInfoRefs (p : Plumbing) (fs : MemSt) : Except RefsFailure (List Char) :=
  match p.resolveHeadMem fs with
  | .error e => .error ⟨e⟩
  | .ok head =>
    match branchesLines p fs with
    | .error e => .error ⟨e⟩
    | .ok blines =>
      .ok ("001e# service=git-upload-pack\n0000".toList ++
        formatPacketLine (headLineOf head) ++ blines ++ flushPkt)

/-- Modelled from the spec: a minimal external plumbing collaborator
(the git object model is out of scope of the repository).  Initialization
is the idempotent repository setup and succeeds; resolution of HEAD fails
with an unresolved-HEAD error, as the spec describes for a repository
with no commits; the branch list is empty. -/
def specPlumbing : Plumbing where
  init := fun fs => .ok fs
  addAll := fun fs => .ok fs
  commitTemplate := fun fs => .ok ("", fs)
  resolveHeadMem := fun _ => .error "HEAD unresolved"
  resolveHeadSqlite := fun _ => .error "HEAD unresolved"
  writeRefMain := fun fs _ => .ok fs
  listBranches := fun _ => .ok []
  resolveBranch := fun _ _ => .error "ref not found"

/-- Modelled from the spec: a plumbing collaborator over a repository
whose HEAD resolves and which has one branch, used to exercise the
advertisement path on concrete input. -/
def advPlumbing : Plumbing :=
  { specPlumbing with
    resolveHeadMem := fun _ => .ok "1111111111111111111111111111111111111111",
    listBranches := fun _ => .ok ["main"],
    resolveBranch := fun _ _ => .ok "1111111111111111111111111111111111111111" }

/-- An agent store holding a git namespace: the fresh store plus an empty
.git directory. -/
def agentWithGit : SqlSt := (sqlMkdir (sqlInit 0) 0 [".git"]).1

deriving instance DecidableEq for Except

/-- The root row exists and is a directory. -/
def rootPresentB (st : SqlSt) : Bool :=
  match alook st rootKey with
  | some e => e.isDir
  | none => false

/-- The store invariant every operation of the source maintains: path
keys are unique, the root directory row exists, and every row's stored
parent_path is the parent of its path key, as writeFile and mkdir compute
it. -/
def StInv (st : SqlSt) : Prop :=
  (st.map (fun kv => kv.1)).Nodup ∧
  rootPresentB st = true ∧
  ∀ kv, kv ∈ st → kv.2.parentPath = parentKeyOf kv.1

/-- Some stored key contributes the immediate-child name b under the
normalized directory key n (first segment under the root, the segment
after the prefix otherwise). -/
def memChildB (st : MemSt) (n : FsPath) (b : String) : Bool :=
  st.any (fun kv =>
    if n = rootKey then kv.1.head? == some b
    else decide (kv.1.take n.length = n) && decide (n.length < kv.1.length) &&
      (kv.1.getD n.length "" == b))

/-- A 65479-character branch name; its advertisement line totals 65532
characters, so the frame including the prefix would need 65536. -/
def longBranch : String := String.mk (List.replicate 65479 'a')

/-- A forty-character object id. -/
def oid40 : String := "1111111111111111111111111111111111111111"

/-- Modelled from the spec: a plumbing collaborator over a repository
with one branch whose name is longBranch. -/
def longPlumbing : Plumbing :=
  { specPlumbing with
    resolveHeadMem := fun _ => .ok oid40,
    listBranches := fun _ => .ok [longBranch],
    resolveBranch := fun _ _ => .ok oid40 }

/-! # Theorems -/

/-! ## Association-list lemmas -/

theorem alook_aset_self {α : Type} (st : List (FsPath × α)) (k : FsPath) (v : α) :
    alook (aset st k v) k = some v := by
  induction st with
  | nil => simp [aset, alook]
  | cons kv rest ih =>
    by_cases h : kv.1 = k
    · simp [aset, h, alook]
    · simp [aset, h, alook, ih]

theorem alook_aset_ne {α : Type} (st : List (FsPath × α)) (k : FsPath) (v : α)
    (q : FsPath) (h : q ≠ k) : alook (aset st k v) q = alook st q := by
  have hkq : k ≠ q := Ne.symm h
  induction st with
  | nil => simp [aset, alook, hkq]
  | cons kv rest ih =>
    by_cases hk : kv.1 = k
    · subst hk
      simp [aset, alook, hkq, fun hh : kv.1 = q => hkq hh]
    · simp only [aset, if_neg hk, alook]
      by_cases hq : kv.1 = q
      · simp [hq]
      · simp [hq, ih]

theorem alook_aaddIfAbsent_ne {α : Type} (st : List (FsPath × α)) (k : FsPath) (v : α)
    (q : FsPath) (h : q ≠ k) : alook (aaddIfAbsent st k v) q = alook st q := by
  have hkq : k ≠ q := Ne.symm h
  unfold aaddIfAbsent
  cases alook st k with
  | some w => rfl
  | none => simp [alook, hkq]

theorem alook_some_mem {α : Type} (st : List (FsPath × α)) (k : FsPath) (v : α)
    (h : alook st k = some v) : (k, v) ∈ st := by
  induction st with
  | nil => simp [alook] at h
  | cons kv rest ih =>
    by_cases hk : kv.1 = k
    · rcases kv with ⟨k1, v1⟩
      simp only at hk
      subst hk
      simp [alook] at h
      subst h
      exact List.mem_cons_self _ _
    · simp [alook, hk] at h
      right
      exact ih h

theorem alook_of_mem_nodup {α : Type} (st : List (FsPath × α)) (k : FsPath) (v : α)
    (hnd : (st.map (fun kv => kv.1)).Nodup) (hm : (k, v) ∈ st) : alook st k = some v := by
  induction st with
  | nil => simp at hm
  | cons kv rest ih =>
    simp only [List.map_cons, List.nodup_cons] at hnd
    rcases List.mem_cons.mp hm with h1 | h2
    · subst h1
      simp [alook]
    · have hk : kv.1 ≠ k := by
        intro he
        exact hnd.1 (he ▸ List.mem_map.mpr ⟨(k, v), h2, rfl⟩)
      simp [alook, hk]
      exact ih hnd.2 h2

/-! ## Base64 lemmas -/

theorem sextetVal_sextetChar : ∀ k, k < 64 → sextetVal (sextetChar k) = k := by decide

theorem sextetChar_ne_pad : ∀ k, k < 64 → sextetChar k ≠ '=' := by decide

theorem atob_btoa : ∀ bs : List Nat, (∀ b ∈ bs, b < 256) → atob (btoa bs) = bs
  | [], _ => rfl
  | [a], h => by
    have ha : a < 256 := h a (by simp)
    have h1 : a / 4 < 64 := by omega
    have h2 : a % 4 * 16 < 64 := by omega
    simp [btoa, atob, atobQuad, sextetVal_sextetChar _ h1, sextetVal_sextetChar _ h2]
    omega
  | [a, b], h => by
    have ha : a < 256 := h a (by simp)
    have hb : b < 256 := h b (by simp)
    have h1 : a / 4 < 64 := by omega
    have h2 : a % 4 * 16 + b / 16 < 64 := by omega
    have h3 : b % 16 * 4 < 64 := by omega
    simp [btoa, atob, atobQuad, sextetChar_ne_pad _ h3,
      sextetVal_sextetChar _ h1, sextetVal_sextetChar _ h2, sextetVal_sextetChar _ h3]
    omega
  | a :: b :: c :: rest, h => by
    have ha : a < 256 := h a (by simp)
    have hb : b < 256 := h b (by simp)
    have hc : c < 256 := h c (by simp)
    have h1 : a / 4 < 64 := by omega
    have h2 : a % 4 * 16 + b / 16 < 64 := by omega
    have h3 : b % 16 * 4 + c / 64 < 64 := by omega
    have h4 : c % 64 < 64 := by omega
    have ih := atob_btoa rest (fun x hx => h x (by simp [hx]))
    simp [btoa, atob, atobQuad, sextetChar_ne_pad _ h3, sextetChar_ne_pad _ h4,
      sextetVal_sextetChar _ h1, sextetVal_sextetChar _ h2,
      sextetVal_sextetChar _ h3, sextetVal_sextetChar _ h4, ih]
    omega

theorem btoa_length : ∀ bs : List Nat, (btoa bs).length = 4 * ((bs.length + 2) / 3)
  | [] => rfl
  | [a] => by simp [btoa]
  | [a, b] => by simp [btoa]
  | a :: b :: c :: rest => by
    have ih := btoa_length rest
    simp [btoa, ih]
    omega

theorem btoa_eq_nil : ∀ bs : List Nat, btoa bs = [] → bs = []
  | [], _ => rfl
  | [a], h => by simp [btoa] at h
  | [a, b], h => by simp [btoa] at h
  | a :: b :: c :: rest, h => by simp [btoa] at h

/-! ## Hexadecimal lemmas -/

theorem hexVal_hexDigit : ∀ k, k < 16 → hexVal (hexDigit k) = k := by decide

theorem decodeHexAux_append (xs ys : List Char) (acc : Nat) :
    decodeHexAux (xs ++ ys) acc = decodeHexAux ys (decodeHexAux xs acc) := by
  induction xs generalizing acc with
  | nil => rfl
  | cons x xs ih => simp [decodeHexAux, ih]

theorem decodeHexAux_zeros (j : Nat) : decodeHexAux (List.replicate j '0') 0 = 0 := by
  induction j with
  | zero => rfl
  | succ j ih =>
    have : hexVal '0' = 0 := by decide
    simpa [List.replicate_succ, decodeHexAux, this] using ih

theorem decode_toHex_aux (n : Nat) :
    ∀ acc : Nat, decodeHexAux (toHex n) acc = acc * 16 ^ (toHex n).length + n := by
  induction n using Nat.strong_induction_on with
  | _ n ih =>
    intro acc
    rw [toHex]
    by_cases h : n < 16
    · simp [h, decodeHexAux, hexVal_hexDigit n h]
    · have hlt : n / 16 < n := Nat.div_lt_self (by omega) (by omega)
      simp only [h, dite_false]
      rw [decodeHexAux_append]
      simp only [decodeHexAux]
      rw [hexVal_hexDigit (n % 16) (by omega), ih (n / 16) hlt acc]
      rw [List.length_append, List.length_singleton, pow_succ, ← mul_assoc]
      generalize acc * 16 ^ (toHex (n / 16)).length = m
      omega

theorem decode_toHex (n : Nat) : decodeHex (toHex n) = n := by
  simpa [decodeHex] using decode_toHex_aux n 0

theorem toHex_length_le : ∀ k n : Nat, 0 < k → n < 16 ^ k → (toHex n).length ≤ k := by
  intro k
  induction k with
  | zero => omega
  | succ k ih =>
    intro n hk hn
    rw [toHex]
    by_cases h : n < 16
    · simp [h]
    · have hk1 : 0 < k := by
        by_contra hc
        have hz : k = 0 := by omega
        subst hz
        simp [pow_succ, pow_zero] at hn
        omega
      have hdiv : n / 16 < 16 ^ k := by
        rw [pow_succ] at hn
        omega
      have := ih (n / 16) hk1 hdiv
      simp [h, List.length_append]
      omega

theorem pad4_length (ds : List Char) (h : ds.length ≤ 4) : (pad4 ds).length = 4 := by
  simp [pad4]
  omega

theorem decodeHex_pad4 (ds : List Char) : decodeHex (pad4 ds) = decodeHex ds := by
  simp [pad4, decodeHex, decodeHexAux_append, decodeHexAux_zeros]

/-! ## writeFile helper lemmas -/

theorem sqlWriteFile_error_state (st : SqlSt) (now : Nat) (p : FsPath) (bytes : List Nat)
    (e : FsErr) (h : (sqlWriteFile st now p bytes).2 = some e) :
    (sqlWriteFile st now p bytes).1 = st := by
  by_cases h1 : normLead p = rootKey
  · simp [sqlWriteFile, h1]
  · by_cases h2 : MAX_OBJECT_SIZE < bytes.length
    · simp [sqlWriteFile, h1, h2]
    · by_cases h3 : dirAtB st (normLead p) = true
      · simp [sqlWriteFile, h1, h2, h3]
      · exfalso
        simp [sqlWriteFile, h1, h2, h3] at h

theorem sqlWriteFile_ok_eq (st : SqlSt) (now : Nat) (p : FsPath) (bytes : List Nat)
    (h1 : normLead p ≠ rootKey) (h2 : ¬ MAX_OBJECT_SIZE < bytes.length)
    (h3 : dirAtB st (normLead p) = false) :
    sqlWriteFile st now p bytes =
      (aset (if 1 < (normLead p).length then ancestorDirs st now (normLead p) else st)
        (normLead p)
        ⟨if 1 < (normLead p).length then (normLead p).dropLast else rootKey,
         if bytes = [] then [] else btoa bytes, false, now⟩, none) := by
  simp [sqlWriteFile, h1, h2, h3]

theorem sqlWriteFile_err_size (st : SqlSt) (now : Nat) (p : FsPath) (bytes : List Nat)
    (h1 : normLead p ≠ rootKey) (h2 : MAX_OBJECT_SIZE < bytes.length) :
    sqlWriteFile st now p bytes = (st, some FsErr.sizeExceeded) := by
  simp [sqlWriteFile, h1, h2]

theorem alook_foldl_addIfAbsent {β : Type} (f : β → FsPath) (g : β → FsEntry)
    (l : List β) (st : SqlSt) (q : FsPath) (h : ∀ i ∈ l, f i ≠ q) :
    alook (l.foldl (fun s i => aaddIfAbsent s (f i) (g i)) st) q = alook st q := by
  induction l generalizing st with
  | nil => rfl
  | cons i rest ih =>
    simp only [List.foldl_cons]
    rw [ih _ (fun j hj => h j (List.mem_cons_of_mem i hj)),
      alook_aaddIfAbsent_ne _ _ _ _ (Ne.symm (h i (List.mem_cons_self i rest)))]

theorem alook_ancestorDirs_of_length (st : SqlSt) (now : Nat) (n q : FsPath)
    (h : n.length ≤ q.length) : alook (ancestorDirs st now n) q = alook st q := by
  unfold ancestorDirs
  apply alook_foldl_addIfAbsent
  intro i hi
  intro he
  have hil : i < n.length - 1 := List.mem_range.mp hi
  have : (n.take (i + 1)).length = i + 1 := by
    simp [List.length_take]
    omega
  have : q.length = i + 1 := by rw [← he] at *; omega
  omega

/-! ## Root-presence helper lemmas -/

theorem rootPresentB_aaddIfAbsent (st : SqlSt) (k : FsPath) (e : FsEntry)
    (he : e.isDir = true) (h : rootPresentB st = true) :
    rootPresentB (aaddIfAbsent st k e) = true := by
  by_cases hk : k = rootKey
  · subst hk
    unfold rootPresentB at h
    unfold aaddIfAbsent
    cases hx : alook st rootKey with
    | some w => simpa [rootPresentB, hx] using h
    | none => simp [hx] at h
  · unfold rootPresentB
    rw [alook_aaddIfAbsent_ne _ _ _ _ (Ne.symm hk)]
    exact h

theorem rootPresentB_aset_ne (st : SqlSt) (k : FsPath) (e : FsEntry)
    (hk : k ≠ rootKey) (h : rootPresentB st = true) :
    rootPresentB (aset st k e) = true := by
  unfold rootPresentB
  rw [alook_aset_ne _ _ _ _ (Ne.symm hk)]
  exact h

theorem rootPresentB_ancestorDirs (st : SqlSt) (now : Nat) (n : FsPath)
    (h : rootPresentB st = true) : rootPresentB (ancestorDirs st now n) = true := by
  unfold ancestorDirs
  generalize List.range (n.length - 1) = l
  induction l generalizing st with
  | nil => exact h
  | cons i rest ih =>
    simp only [List.foldl_cons]
    exact ih _ (rootPresentB_aaddIfAbsent _ _ _ rfl h)

theorem alook_filter_of_pred {α : Type} (st : List (FsPath × α)) (q : FsPath) (v : α)
    (pred : FsPath × α → Bool) (h : alook st q = some v) (hp : pred (q, v) = true) :
    alook (st.filter pred) q = some v := by
  induction st with
  | nil => simp [alook] at h
  | cons kv rest ih =>
    by_cases hk : kv.1 = q
    · rcases kv with ⟨k1, v1⟩
      simp only at hk
      subst hk
      simp [alook] at h
      subst h
      simp [List.filter, hp, alook]
    · simp only [alook, if_neg hk] at h
      by_cases hkeep : pred kv = true
      · simp only [List.filter, hkeep]
        simpa [alook, hk] using ih h
      · simp only [List.filter]
        rw [Bool.not_eq_true] at hkeep
        rw [hkeep]
        exact ih h

/-! ## Claim theorems -/

/-- C10: on the persistent store, whenever writeFile fails — the root
guard, the size ceiling, or a directory at the path — the store state is
exactly unchanged: no entry is created, replaced or removed, and no
ancestor directory entries are synthesized. -/
theorem c10_writefile_failure_atomic (st : SqlSt) (now : Nat) (p : FsPath)
    (bytes : List Nat) (e : FsErr) (h : (sqlWriteFile st now p bytes).2 = some e) :
    (sqlWriteFile st now p bytes).1 = st :=
  sqlWriteFile_error_state st now p bytes e h

/-- Witness for C10 at a concrete input: writing the root path of the
fresh store fails and leaves the store unchanged. -/
theorem c10_writefile_failure_atomic_witness :
    (sqlWriteFile (sqlInit 0) 0 ["", ""] [1]).1 = sqlInit 0 :=
  c10_writefile_failure_atomic (sqlInit 0) 0 ["", ""] [1] FsErr.rootWrite (by decide)

/-- C2 counterexample: the claim ties the SizeExceeded rejection to the
encoded size, but the source checks the raw byte length.  700000 raw
bytes encode to 933336 base64 characters, above the 921600 ceiling, yet
the write is accepted; and a size-rejected write over an existing object
leaves the old object readable rather than absent. -/
theorem c2_counterexample :
    MAX_OBJECT_SIZE < (btoa (List.replicate 700000 0)).length ∧
    (sqlWriteFile (sqlInit 0) 0 ["f"] (List.replicate 700000 0)).2 = none ∧
    (sqlWriteFile ((sqlWriteFile (sqlInit 0) 0 ["g"] [1]).1) 0 ["g"]
        (List.replicate (MAX_OBJECT_SIZE + 1) 0)).2 = some FsErr.sizeExceeded ∧
    sqlReadFile ((sqlWriteFile ((sqlWriteFile (sqlInit 0) 0 ["g"] [1]).1) 0 ["g"]
        (List.replicate (MAX_OBJECT_SIZE + 1) 0)).1) ["g"] = .ok [1] := by
  refine ⟨?_, ?_, ?_, ?_⟩
  · rw [btoa_length, List.length_replicate]
    decide
  · rw [sqlWriteFile_ok_eq]
    · decide
    · rw [List.length_replicate]
      decide
    · decide
  · rw [sqlWriteFile_err_size]
    · decide
    · rw [List.length_replicate]
      omega
  · rw [sqlWriteFile_err_size]
    · decide
    · decide
    · rw [List.length_replicate]
      omega

/-- C2 amended: writeFile on the persistent store fails with SizeExceeded
exactly when the raw byte length exceeds the 900 KB ceiling (for any
non-root path; the base64-encoded size may exceed the ceiling without
rejection), and after any rejected write a previously absent path is
still absent: readFile fails with NotFound. -/
theorem c2_amended_size_ceiling (st : SqlSt) (now : Nat) (p : FsPath) (bytes : List Nat) :
    (normLead p ≠ rootKey →
      (((sqlWriteFile st now p bytes).2 = some FsErr.sizeExceeded) ↔
        MAX_OBJECT_SIZE < bytes.length)) ∧
    (∀ e, (sqlWriteFile st now p bytes).2 = some e → alook st (normLead p) = none →
      sqlReadFile (sqlWriteFile st now p bytes).1 p = .error FsErr.enoent) := by
  constructor
  · intro h1
    constructor
    · intro h
      by_cases h2 : MAX_OBJECT_SIZE < bytes.length
      · exact h2
      · exfalso
        by_cases h3 : dirAtB st (normLead p) = true
        · simp [sqlWriteFile, h1, h2, h3] at h
        · simp [sqlWriteFile, h1, h2, h3] at h
    · intro h2
      rw [sqlWriteFile_err_size st now p bytes h1 h2]
  · intro e he habs
    rw [sqlWriteFile_error_state st now p bytes e he]
    simp [sqlReadFile, habs]

/-- Witness for C2 amended at a concrete input: a write of 921601 raw
bytes to a fresh path is rejected with SizeExceeded, and reading the
path afterwards reports NotFound. -/
theorem c2_amended_size_ceiling_witness :
    (sqlWriteFile (sqlInit 0) 0 ["big"] (List.replicate (MAX_OBJECT_SIZE + 1) 0)).2 =
      some FsErr.sizeExceeded ∧
    sqlReadFile (sqlWriteFile (sqlInit 0) 0 ["big"]
      (List.replicate (MAX_OBJECT_SIZE + 1) 0)).1 ["big"] = .error FsErr.enoent := by
  constructor
  · exact (c2_amended_size_ceiling (sqlInit 0) 0 ["big"] _).1 (by decide)
      |>.mpr (by rw [List.length_replicate]; omega)
  · exact (c2_amended_size_ceiling (sqlInit 0) 0 ["big"] _).2 FsErr.sizeExceeded
      ((c2_amended_size_ceiling (sqlInit 0) 0 ["big"] _).1 (by decide)
        |>.mpr (by rw [List.length_replicate]; omega)) (by decide)

/-- C7: writing then reading the same path returns the written bytes in
both backends.  On the persistent store this uses that base64 decoding
inverts encoding on arbitrary byte content; on the volatile store it is
the map round-trip.  Bytes are below 256 as Uint8Array cells are. -/
theorem c7_roundtrip :
    (∀ (st : SqlSt) (now : Nat) (p : FsPath) (bytes : List Nat) (st2 : SqlSt),
      (∀ b ∈ bytes, b < 256) → sqlWriteFile st now p bytes = (st2, none) →
      sqlReadFile st2 p = .ok bytes) ∧
    (∀ (st : MemSt) (p : FsPath) (bytes : List Nat),
      memReadFile (memWriteFile st p bytes) p = .ok bytes) := by
  constructor
  · intro st now p bytes st2 hb h
    have h1 : normLead p ≠ rootKey := by
      intro hh
      simp [sqlWriteFile, hh] at h
    have h2 : ¬ MAX_OBJECT_SIZE < bytes.length := by
      intro hh
      rw [sqlWriteFile_err_size st now p bytes h1 hh] at h
      exact Option.noConfusion (congrArg Prod.snd h)
    have h3 : dirAtB st (normLead p) = false := by
      by_contra hc
      rw [Bool.not_eq_false] at hc
      simp [sqlWriteFile, h1, h2, hc] at h
    rw [sqlWriteFile_ok_eq st now p bytes h1 h2 h3] at h
    have hst2 : st2 = aset (if 1 < (normLead p).length then ancestorDirs st now (normLead p) else st)
        (normLead p)
        ⟨if 1 < (normLead p).length then (normLead p).dropLast else rootKey,
         if bytes = [] then [] else btoa bytes, false, now⟩ :=
      (congrArg Prod.fst h).symm
    subst hst2
    simp only [sqlReadFile]
    rw [alook_aset_self]
    by_cases hnil : bytes = []
    · subst hnil
      simp
    · simp only [if_neg hnil]
      have hbne : btoa bytes ≠ [] := fun hc => hnil (btoa_eq_nil bytes hc)
      simp [hbne, atob_btoa bytes hb]
  · intro st p bytes
    simp [memReadFile, memWriteFile, alook_aset_self]

/-- Witness for C7 at concrete inputs in both backends. -/
theorem c7_roundtrip_witness :
    sqlReadFile (sqlWriteFile (sqlInit 0) 0 ["a", "b"] [5]).1 ["a", "b"] = .ok [5] ∧
    memReadFile (memWriteFile memEmpty ["x"] [9]) ["x"] = .ok [9] :=
  ⟨c7_roundtrip.1 (sqlInit 0) 0 ["a", "b"] [5] _ (by decide) (by decide),
   c7_roundtrip.2 memEmpty ["x"] [9]⟩

/-! ## Root-presence across each operation -/

theorem rootPresentB_sqlWriteFile (st : SqlSt) (now : Nat) (p : FsPath) (bytes : List Nat)
    (h : rootPresentB st = true) : rootPresentB (sqlWriteFile st now p bytes).1 = true := by
  by_cases h1 : normLead p = rootKey
  · simpa [sqlWriteFile, h1] using h
  · by_cases h2 : MAX_OBJECT_SIZE < bytes.length
    · simpa [sqlWriteFile, h1, h2] using h
    · by_cases h3 : dirAtB st (normLead p) = true
      · simpa [sqlWriteFile, h1, h2, h3] using h
      · rw [sqlWriteFile_ok_eq st now p bytes h1 h2 (by simpa using h3)]
        apply rootPresentB_aset_ne _ _ _ h1
        by_cases hlen : 1 < (normLead p).length
        · simpa [hlen] using rootPresentB_ancestorDirs st now (normLead p) h
        · simpa [hlen] using h

theorem rootPresentB_sqlUnlink (st : SqlSt) (p : FsPath)
    (h : rootPresentB st = true) : rootPresentB (sqlUnlink st p).1 = true := by
  obtain ⟨r, hr, hrd⟩ : ∃ r, alook st rootKey = some r ∧ r.isDir = true := by
    unfold rootPresentB at h
    cases hx : alook st rootKey with
    | none => rw [hx] at h; exact absurd h (by simp)
    | some r => rw [hx] at h; exact ⟨r, rfl, h⟩
  unfold sqlUnlink
  cases hl : alook st (normLead p) with
  | none => simpa [hl] using h
  | some e =>
    by_cases he : e.isDir = true
    · simpa [hl, he] using h
    · simp only [hl]
      rw [Bool.not_eq_true] at he
      simp only [he, Bool.false_eq_true, if_false]
      unfold rootPresentB
      rw [alook_filter_of_pred st rootKey r _ hr (by simp [hrd])]
      simpa using hrd

theorem rootPresentB_sqlMkdir (st : SqlSt) (now : Nat) (p : FsPath)
    (h : rootPresentB st = true) : rootPresentB (sqlMkdir st now p).1 = true := by
  by_cases h1 : normBoth p = rootKey
  · simpa [sqlMkdir, h1] using h
  · by_cases h2 : mkdirParentOkB st (normBoth p) = false
    · simpa [sqlMkdir, h1, h2] using h
    · cases hl : alook st (normBoth p) with
      | none =>
        simp only [sqlMkdir, h1, h2, hl, if_neg, if_false]
        simpa [h1, h2, hl] using
          rootPresentB_aaddIfAbsent st (normBoth p) _ rfl h
      | some e =>
        by_cases he : e.isDir = true
        · simpa [sqlMkdir, h1, h2, hl, he] using h
        · simpa [sqlMkdir, h1, h2, hl, he] using h

theorem rootPresentB_sqlRmdir (st : SqlSt) (p : FsPath)
    (h : rootPresentB st = true) : rootPresentB (sqlRmdir st p).1 = true := by
  obtain ⟨r, hr, hrd⟩ : ∃ r, alook st rootKey = some r ∧ r.isDir = true := by
    unfold rootPresentB at h
    cases hx : alook st rootKey with
    | none => rw [hx] at h; exact absurd h (by simp)
    | some r => rw [hx] at h; exact ⟨r, rfl, h⟩
  by_cases h1 : normBoth p = rootKey
  · simpa [sqlRmdir, h1] using h
  · unfold sqlRmdir
    simp only [h1, if_neg, if_false]
    cases hl : alook st (normBoth p) with
    | none => simpa [h1, hl] using h
    | some e =>
      by_cases he : e.isDir = true
      · by_cases hne : st.any (fun kv =>
            decide (kv.1.take (normBoth p).length = normBoth p) &&
            decide ((normBoth p).length < kv.1.length)) = true
        · simpa [h1, hl, he, hne] using h
        · simp only [h1, hl, he, if_neg]
          rw [Bool.not_eq_true] at hne
          simp only [hne, if_true, if_false, Bool.true_eq_false, Bool.false_eq_true]
          unfold rootPresentB
          rw [alook_filter_of_pred st rootKey r _ hr (by simp [Ne.symm h1])]
          simpa using hrd
      · simpa [h1, hl, he] using h

/-- C5 counterexample: on the volatile store the root does not always
exist as a directory and is not protected.  In the fresh store, stat of
the root path reports NotFound rather than a directory; writing the root
path succeeds and the written file is readable back at the root; rmdir
is a success no-op, also on the root. -/
theorem c5_counterexample :
    memStat memEmpty ["", ""] = .error FsErr.enoent ∧
    memReadFile (memWriteFile memEmpty ["", ""] [7]) ["", ""] = .ok [7] ∧
    memRmdir memEmpty = (memEmpty, none) :=
  ⟨by decide, by decide, rfl⟩

/-- C5 amended: on the persistent store the root always exists as a
directory — the fresh store has it and every operation preserves it — its
stat reports directory kind, and rmdir and writeFile on the root always
fail.  On the volatile store the fresh store's root stats NotFound,
writeFile to the root succeeds, and rmdir is an unconditional no-op. -/
theorem c5_amended_root :
    (∀ now, rootPresentB (sqlInit now) = true) ∧
    (∀ st now p bytes, rootPresentB st = true →
      rootPresentB (sqlWriteFile st now p bytes).1 = true) ∧
    (∀ st p, rootPresentB st = true → rootPresentB (sqlUnlink st p).1 = true) ∧
    (∀ st now p, rootPresentB st = true → rootPresentB (sqlMkdir st now p).1 = true) ∧
    (∀ st p, rootPresentB st = true → rootPresentB (sqlRmdir st p).1 = true) ∧
    (∀ st p, rootPresentB st = true → normLead p = rootKey →
      ∃ s, sqlStat st p = .ok s ∧ s.type = StatType.dir) ∧
    (∀ st now p bytes, normLead p = rootKey →
      sqlWriteFile st now p bytes = (st, some FsErr.rootWrite)) ∧
    (∀ st p, normBoth p = rootKey → sqlRmdir st p = (st, some FsErr.rootRemove)) := by
  refine ⟨?_, rootPresentB_sqlWriteFile, rootPresentB_sqlUnlink, rootPresentB_sqlMkdir,
    rootPresentB_sqlRmdir, ?_, ?_, ?_⟩
  · intro now
    simp [rootPresentB, sqlInit, alook]
  · intro st p h hn
    obtain ⟨r, hr, hrd⟩ : ∃ r, alook st rootKey = some r ∧ r.isDir = true := by
      unfold rootPresentB at h
      cases hx : alook st rootKey with
      | none => rw [hx] at h; exact absurd h (by simp)
      | some r => rw [hx] at h; exact ⟨r, rfl, h⟩
    refine ⟨⟨StatType.dir, 0o040755, 0, r.mtime⟩, ?_, rfl⟩
    simp [sqlStat, hn, hr, hrd]
  · intro st now p bytes hn
    simp [sqlWriteFile, hn]
  · intro st p hn
    simp [sqlRmdir, hn]

/-- Witness for C5 amended at concrete inputs: root presence survives a
write on the fresh store, the root stats as a directory, and writing or
removing the root path fails. -/
theorem c5_amended_root_witness :
    rootPresentB (sqlWriteFile (sqlInit 0) 0 ["a"] [1]).1 = true ∧
    (∃ s, sqlStat (sqlInit 0) ["", ""] = .ok s ∧ s.type = StatType.dir) ∧
    sqlWriteFile (sqlInit 0) 0 ["", ""] [1] = (sqlInit 0, some FsErr.rootWrite) ∧
    sqlRmdir (sqlInit 0) ["", ""] = (sqlInit 0, some FsErr.rootRemove) :=
  ⟨c5_amended_root.2.1 (sqlInit 0) 0 ["a"] [1] (c5_amended_root.1 0),
   c5_amended_root.2.2.2.2.2.1 (sqlInit 0) ["", ""] (c5_amended_root.1 0) (by decide),
   c5_amended_root.2.2.2.2.2.2.1 (sqlInit 0) 0 ["", ""] [1] (by decide),
   c5_amended_root.2.2.2.2.2.2.2 (sqlInit 0) ["", ""] (by decide)⟩

/-- C4 counterexample: on the volatile store a file occupies the path a,
yet mkdir (which takes no path and is a no-op) succeeds with no error,
where the claim demands an AlreadyExists failure. -/
theorem c4_counterexample :
    alook (memWriteFile memEmpty ["a"] [1]) ["a"] = some [1] ∧
    memMkdir (memWriteFile memEmpty ["a"] [1]) = (memWriteFile memEmpty ["a"] [1], none) :=
  ⟨by decide, rfl⟩

/-- C4 amended: on the persistent store mkdir is idempotent over an
existing directory, fails with AlreadyExists over a file, fails with
NotFound when the parent check fails (the parent of a multi-segment key
is absent or not a directory), and is silent on the root; on the
volatile store mkdir is an unconditional no-op that always succeeds. -/
theorem c4_amended_mkdir :
    (∀ st : MemSt, memMkdir st = (st, none)) ∧
    (∀ (st : SqlSt) (now : Nat) (p : FsPath),
      (normBoth p = rootKey → sqlMkdir st now p = (st, none)) ∧
      (mkdirParentOkB st (normBoth p) = false →
        sqlMkdir st now p = (st, some FsErr.enoent)) ∧
      (∀ e, normBoth p ≠ rootKey → mkdirParentOkB st (normBoth p) = true →
        alook st (normBoth p) = some e →
        ((e.isDir = true → sqlMkdir st now p = (st, none)) ∧
         (e.isDir = false → sqlMkdir st now p = (st, some FsErr.eexist))))) := by
  refine ⟨fun st => rfl, ?_⟩
  intro st now p
  refine ⟨?_, ?_, ?_⟩
  · intro hn
    simp [sqlMkdir, hn]
  · intro hok
    have hroot : normBoth p ≠ rootKey := by
      intro hh
      rw [hh] at hok
      simp [mkdirParentOkB, rootKey] at hok
    simp [sqlMkdir, hroot, hok]
  · intro e hroot hok hl
    constructor
    · intro he
      simp [sqlMkdir, hroot, hok, hl, he]
    · intro he
      simp [sqlMkdir, hroot, hok, hl, he]

/-- Witness for C4 amended at concrete inputs: mkdir over the existing
directory .git is a silent success, and mkdir of a nested path with no
parent fails with NotFound. -/
theorem c4_amended_mkdir_witness :
    sqlMkdir agentWithGit 0 [".git"] = (agentWithGit, none) ∧
    sqlMkdir agentWithGit 0 ["a", "b"] = (agentWithGit, some FsErr.enoent) :=
  ⟨((c4_amended_mkdir.2 agentWithGit 0 [".git"]).2.2 ⟨rootKey, [], true, 0⟩
      (by decide) (by decide) (by decide)).1 rfl,
   (c4_amended_mkdir.2 agentWithGit 0 ["a", "b"]).2.1 (by decide)⟩


/-! ## Readdir characterization helpers -/

theorem normBoth_ne_nil (p : FsPath) : normBoth p ≠ [] := by
  unfold normBoth
  by_cases h : dropTrail (p.dropWhile (fun s => s = "")) = []
  · simp [h, rootKey]
  · simp [h]

theorem key_shape (k n : FsPath) (hn : n ≠ rootKey) (h : parentKeyOf k = n) :
    2 ≤ k.length ∧ k = n ++ [k.getLastD ""] := by
  unfold parentKeyOf at h
  by_cases hl : k.length ≤ 1
  · rw [if_pos hl] at h
    exact absurd h.symm hn
  · rw [if_neg hl] at h
    have h2 : 2 ≤ k.length := by omega
    rcases List.eq_nil_or_concat k with hnil | ⟨L, a, hk⟩
    · subst hnil
      simp at h2
    · subst hk
      rw [List.concat_eq_append] at *
      rw [List.dropLast_concat] at h
      subst h
      rw [List.getLastD_concat]
      exact ⟨h2, rfl⟩

theorem parentKeyOf_concat (n : FsPath) (b : String) (hn : n ≠ []) :
    parentKeyOf (n ++ [b]) = n := by
  have hlen : n.length ≠ 0 := fun hz => hn (List.length_eq_zero.mp hz)
  have hc : ¬ ((n ++ [b]).length ≤ 1) := by
    simp only [List.length_append, List.length_singleton]
    omega
  unfold parentKeyOf
  rw [if_neg hc, List.dropLast_concat]

/-- Unfolding of the child-name extraction of the volatile readdir. -/
theorem memChildPick_eq_some (n k : FsPath) (b : String) :
    memChildPick n k = some b ↔
      (b ≠ "" ∧ ((n = rootKey ∧ k.head? = some b) ∨
        (n ≠ rootKey ∧ k.take n.length = n ∧ n.length < k.length ∧
          k.getD n.length "" = b))) := by
  unfold memChildPick
  by_cases hn : n = rootKey
  · cases hh : k.head? with
    | none => simp [hn, hh]
    | some b' =>
      by_cases hb' : b' = "" <;> simp [hn, hh, hb']
      · rintro h rfl
        exact h rfl
      · rintro rfl
        exact hb'
  · by_cases h1 : k.take n.length = n <;> by_cases h2 : n.length < k.length <;>
      simp [hn, h1, h2]
    intro h
    rw [h]

/-- C3 amended: on the persistent store, for every existing non-root
directory, readdir returns exactly the set of immediate child basenames
(no duplicates; membership is exactly existence of an entry one segment
deeper), and fails with NotFound whenever the path does not hold a
directory row; the root listing additionally contains the empty-string
basename of the root row itself.  On the volatile store, readdir is
duplicate-free and returns exactly the nonempty first segments of stored
keys under the prefix — for any path that is not a directory it returns
the empty list instead of failing. -/
theorem c3_amended_readdir :
    (∀ (st : SqlSt) (p : FsPath), StInv st →
      (∀ e, alook st (normBoth p) = some e → e.isDir = true → normBoth p ≠ rootKey →
        ∃ l, sqlReaddir st p = .ok l ∧ l.Nodup ∧
          ∀ b, (b ∈ l ↔ (alook st (normBoth p ++ [b])).isSome = true)) ∧
      (dirAtB st (normBoth p) = false → sqlReaddir st p = .error FsErr.enoent)) ∧
    (∀ st : SqlSt, StInv st → ∀ l, sqlReaddir st [""] = .ok l → "" ∈ l) ∧
    (∀ (st : MemSt) (p : FsPath),
      (memReaddir st p).Nodup ∧
      ∀ b, (b ∈ memReaddir st p ↔
        (b ≠ "" ∧ memChildB st (memNormDir p) b = true))) := by
  refine ⟨?_, ?_, ?_⟩
  · intro st p hInv
    obtain ⟨hnd, hroot, hpp⟩ := hInv
    constructor
    · intro e hl he hn
      refine ⟨(st.filter (fun kv => decide (kv.2.parentPath = normBoth p))).map
        (fun kv => kv.1.getLastD ""), by simp [sqlReaddir, hl, he], ?_, ?_⟩
      · apply List.Nodup.map_on
        · intro x hx y hy hxy
          have hxm := List.mem_filter.mp hx
          have hym := List.mem_filter.mp hy
          have hxp : parentKeyOf x.1 = normBoth p :=
            (hpp x hxm.1).symm.trans (by simpa using hxm.2)
          have hyp : parentKeyOf y.1 = normBoth p :=
            (hpp y hym.1).symm.trans (by simpa using hym.2)
          obtain ⟨hx2, hxs⟩ := key_shape x.1 (normBoth p) hn hxp
          obtain ⟨hy2, hys⟩ := key_shape y.1 (normBoth p) hn hyp
          have hkey : x.1 = y.1 := by
            rw [hxs, hys, hxy]
          have hv : x.2 = y.2 := by
            have hax := alook_of_mem_nodup st x.1 x.2 hnd (by simpa using hxm.1)
            have hay := alook_of_mem_nodup st y.1 y.2 hnd (by simpa using hym.1)
            rw [hkey] at hax
            rw [hax] at hay
            exact Option.some.inj hay
          exact Prod.ext hkey hv
        · exact (List.Nodup.of_map _ hnd).filter _
      · intro b
        constructor
        · intro hb
          obtain ⟨kv, hkvf, hbase⟩ := List.mem_map.mp hb
          have hkv := List.mem_filter.mp hkvf
          have hpk : parentKeyOf kv.1 = normBoth p :=
            (hpp kv hkv.1).symm.trans (by simpa using hkv.2)
          obtain ⟨h2, hshape⟩ := key_shape kv.1 (normBoth p) hn hpk
          have : normBoth p ++ [b] = kv.1 := by rw [hshape, hbase]
          rw [this]
          rw [alook_of_mem_nodup st kv.1 kv.2 hnd (by simpa using hkv.1)]
          rfl
        · intro hb
          cases hv : alook st (normBoth p ++ [b]) with
          | none => rw [hv] at hb; simp at hb
          | some v =>
            have hmem := alook_some_mem _ _ _ hv
            have hp : v.parentPath = parentKeyOf (normBoth p ++ [b]) :=
              hpp (normBoth p ++ [b], v) hmem
            rw [parentKeyOf_concat _ _ (normBoth_ne_nil p)] at hp
            apply List.mem_map.mpr
            refine ⟨(normBoth p ++ [b], v), List.mem_filter.mpr ⟨hmem, by simp [hp]⟩, ?_⟩
            exact List.getLastD_concat _ _ _
    · intro hdir
      unfold dirAtB at hdir
      cases hl : alook st (normBoth p) with
      | none => simp [sqlReaddir, hl]
      | some e =>
        rw [hl] at hdir
        change e.isDir = false at hdir
        simp [sqlReaddir, hl, hdir]
  · intro st hInv l hl
    obtain ⟨hnd, hroot, hpp⟩ := hInv
    obtain ⟨r, hr, hrd⟩ : ∃ r, alook st rootKey = some r ∧ r.isDir = true := by
      unfold rootPresentB at hroot
      cases hx : alook st rootKey with
      | none => rw [hx] at hroot; exact absurd hroot (by simp)
      | some r => rw [hx] at hroot; exact ⟨r, rfl, hroot⟩
    have hnb : normBoth [""] = rootKey := rfl
    rw [show sqlReaddir st [""] =
        .ok ((st.filter (fun kv => decide (kv.2.parentPath = rootKey))).map
          (fun kv => kv.1.getLastD "")) from by simp [sqlReaddir, hnb, hr, hrd]] at hl
    have hl2 := Except.ok.inj hl
    rw [← hl2]
    apply List.mem_map.mpr
    refine ⟨(rootKey, r), List.mem_filter.mpr ⟨alook_some_mem _ _ _ hr, ?_⟩, rfl⟩
    have h3 := hpp (rootKey, r) (alook_some_mem _ _ _ hr)
    rw [decide_eq_true_eq, h3]
    rfl
  · intro st p
    refine ⟨List.nodup_dedup _, ?_⟩
    intro b
    unfold memReaddir
    rw [List.mem_dedup, List.mem_filterMap]
    unfold memChildB
    rw [List.any_eq_true]
    constructor
    · rintro ⟨k, hk, hpick⟩
      rw [memChildPick_eq_some] at hpick
      obtain ⟨hbne, hcase⟩ := hpick
      refine ⟨hbne, ?_⟩
      obtain ⟨kv, hkv, hfst⟩ := List.mem_map.mp hk
      subst hfst
      refine ⟨kv, hkv, ?_⟩
      rcases hcase with ⟨hn, hcond⟩ | ⟨hn, hc1, hc2, hc3⟩
      · rw [if_pos hn, hcond]
        simp
      · rw [if_neg hn]
        rw [List.getD_eq_getElem?_getD, List.getElem?_eq_getElem hc2] at hc3
        simp only [Option.getD_some] at hc3
        simp [hc1, hc2, hc3]
    · rintro ⟨hbne, kv, hkv, hcond⟩
      refine ⟨kv.1, List.mem_map.mpr ⟨kv, hkv, rfl⟩, ?_⟩
      rw [memChildPick_eq_some]
      refine ⟨hbne, ?_⟩
      by_cases hn : memNormDir p = rootKey
      · rw [if_pos hn] at hcond
        exact Or.inl ⟨hn, by simpa using hcond⟩
      · rw [if_neg hn] at hcond
        simp only [Bool.and_eq_true, decide_eq_true_eq, beq_iff_eq] at hcond
        exact Or.inr ⟨hn, hcond.1.1, hcond.1.2, hcond.2⟩

/-- C3 counterexample: readdir of the root of the freshly initialized
persistent store returns the singleton empty-string listing (the root row
is its own parent) instead of the empty child set; and the volatile
readdir of paths that do not exist as directories returns the empty list
instead of failing with NotFound. -/
theorem c3_counterexample :
    sqlReaddir (sqlInit 0) ["", ""] = .ok [""] ∧
    memReaddir memEmpty ["nope"] = [] ∧
    memReaddir (memWriteFile memEmpty ["a"] [1]) ["zzz"] = [] :=
  ⟨by decide, by decide, by decide⟩

/-- Witness for C3 amended on concrete stores: the store holding the file
a/b satisfies the invariant; its directory a lists exactly b; readdir of
a missing path fails on the persistent store; and the volatile listing of
a concrete store is characterized as proved. -/
theorem c3_amended_readdir_witness :
    StInv ((sqlWriteFile (sqlInit 0) 0 ["a", "b"] [5]).1) ∧
    (∃ l, sqlReaddir ((sqlWriteFile (sqlInit 0) 0 ["a", "b"] [5]).1) ["a"] = .ok l ∧
      l.Nodup ∧ ∀ b, (b ∈ l ↔
        (alook ((sqlWriteFile (sqlInit 0) 0 ["a", "b"] [5]).1) (["a"] ++ [b])).isSome = true)) ∧
    sqlReaddir ((sqlWriteFile (sqlInit 0) 0 ["a", "b"] [5]).1) ["missing"] =
      .error FsErr.enoent ∧
    ((memReaddir (memWriteFile memEmpty ["d", "x"] [1]) ["d"]).Nodup ∧
      ∀ b, (b ∈ memReaddir (memWriteFile memEmpty ["d", "x"] [1]) ["d"] ↔
        (b ≠ "" ∧ memChildB (memWriteFile memEmpty ["d", "x"] [1])
          (memNormDir ["d"]) b = true))) :=
  ⟨by unfold StInv; exact ⟨by decide, by decide, by decide⟩,
   (c3_amended_readdir.1 ((sqlWriteFile (sqlInit 0) 0 ["a", "b"] [5]).1) ["a"]
      (by unfold StInv; exact ⟨by decide, by decide, by decide⟩)).1
      ⟨rootKey, [], true, 0⟩ (by decide) rfl (by decide),
   (c3_amended_readdir.1 ((sqlWriteFile (sqlInit 0) 0 ["a", "b"] [5]).1) ["missing"]
      (by unfold StInv; exact ⟨by decide, by decide, by decide⟩)).2 (by decide),
   c3_amended_readdir.2.2 (memWriteFile memEmpty ["d", "x"] [1]) ["d"]⟩

/-! ## The upload-pack walk -/

theorem collectEntries_mem (g : GitRepo) (f : Nat)
    (hP : ∀ t w, collectTree g f t = some w → ∀ x ∈ w, TReach g t x) :
    ∀ es w, collectEntries g f es = some w → ∀ x ∈ w, ∃ e ∈ es, TReach g e.oid x := by
  intro es
  induction es with
  | nil =>
    intro w h x hx
    rw [collectEntries] at h
    simp at h
    subst h
    simp at hx
  | cons e rest ih =>
    intro w h x hx
    rw [collectEntries] at h
    cases hsub : (if e.isTree then collectTree g f e.oid else some []) with
    | none => rw [hsub] at h; simp at h
    | some sub =>
      cases htail : collectEntries g f rest with
      | none => rw [hsub, htail] at h; simp at h
      | some tail =>
        rw [hsub, htail] at h
        simp at h
        subst h
        rcases List.mem_cons.mp hx with hx1 | hx2
        · exact ⟨e, List.mem_cons_self e rest, by rw [hx1]; exact TReach.refl e.oid⟩
        · rcases List.mem_append.mp hx2 with hx3 | hx4
          · cases hT : e.isTree with
            | true =>
              rw [hT, if_pos rfl] at hsub
              exact ⟨e, List.mem_cons_self e rest, hP e.oid sub hsub x hx3⟩
            | false =>
              rw [hT] at hsub
              simp at hsub
              subst hsub
              simp at hx3
          · obtain ⟨e2, he2, hr2⟩ := ih tail htail x hx4
            exact ⟨e2, List.mem_cons_of_mem e he2, hr2⟩

theorem collectTree_mem (g : GitRepo) :
    ∀ f t w, collectTree g f t = some w → ∀ x ∈ w, TReach g t x := by
  intro f
  induction f with
  | zero =>
    intro t w h
    rw [collectTree] at h
    simp at h
  | succ f ih =>
    intro t w h x hx
    rw [collectTree] at h
    cases hts : g.trees t with
    | none => simp only [hts] at h; exact Option.noConfusion h
    | some es =>
      simp only [hts] at h
      cases hce : collectEntries g f es with
      | none => simp only [hce] at h; exact Option.noConfusion h
      | some subs =>
        simp only [hce] at h
        simp at h
        subst h
        rcases List.mem_cons.mp hx with hx1 | hx2
        · rw [hx1]
          exact TReach.refl t
        · obtain ⟨e, he, hr⟩ := collectEntries_mem g f ih es subs hce x hx2
          exact TReach.step t es e x hts he hr

/-- C1 counterexample: on a repository whose HEAD commit c2 has a parent
commit c1, the object list handleUploadPack computes is c2, t2, t2, b1:
the reachable parent commit c1 is absent (parents are never visited), and
the root tree id t2 appears twice (no visited-set deduplication), so the
list is neither the reachable closure of HEAD nor duplicate-free. -/
theorem c1_counterexample :
    uploadPackObjects gEx 10 = some ["c2", "t2", "t2", "b1"] ∧
    Reachable gEx "c1" ∧
    "c1" ∉ (["c2", "t2", "t2", "b1"] : List String) ∧
    ¬ (["c2", "t2", "t2", "b1"] : List String).Nodup := by
  refine ⟨?_, ?_, by decide, by decide⟩
  · simp [uploadPackObjects, gEx, collectTree, collectEntries]
  · exact Reachable.parent "c2" ⟨"t2", ["c1"]⟩ "c1" (Reachable.isHead "c2" rfl) rfl (by simp)

/-- C1 amended: when HEAD resolves to a commit and the recursive walk of
its root tree succeeds, the object list handed to the pack builder is the
head id, the commit's root tree id, then the preorder walk of that tree —
the root tree id therefore occurs at least twice, every listed object is
the head id or an id reachable through tree entries from the root tree
(never a parent commit id that is not also tree-reachable), and the pack
bytes are wrapped in one channel-1 sideband frame. -/
theorem c1_amended_walk (g : GitRepo) (fuel : Nat) (hd : String) (c : GitCommit)
    (walk : List String)
    (h1 : g.head = some hd) (h2 : g.commits hd = some c)
    (h3 : collectTree g fuel c.tree = some walk) :
    uploadPackObjects g fuel = some (hd :: c.tree :: walk) ∧
    2 ≤ (hd :: c.tree :: walk).count c.tree ∧
    (∀ x ∈ hd :: c.tree :: walk, x = hd ∨ TReach g c.tree x) ∧
    (∀ pack pf, pack (hd :: c.tree :: walk) = some pf →
      handleUploadPack g fuel pack = some (1 :: pf)) := by
  have hobj : uploadPackObjects g fuel = some (hd :: c.tree :: walk) := by
    simp [uploadPackObjects, h1, h2, h3]
  refine ⟨hobj, ?_, ?_, ?_⟩
  · obtain ⟨f, rfl⟩ : ∃ f, fuel = f + 1 := by
      cases fuel with
      | zero => rw [collectTree] at h3; simp at h3
      | succ f => exact ⟨f, rfl⟩
    obtain ⟨subs, rfl⟩ : ∃ subs, walk = c.tree :: subs := by
      rw [collectTree] at h3
      cases hts : g.trees c.tree with
      | none => simp only [hts] at h3; exact Option.noConfusion h3
      | some es =>
        simp only [hts] at h3
        cases hce : collectEntries g f es with
        | none => simp only [hce] at h3; exact Option.noConfusion h3
        | some subs =>
          simp only [hce] at h3
          simp at h3
          exact ⟨subs, h3.symm⟩
    simp [List.count_cons]
    split_ifs <;> omega
  · intro x hx
    rcases List.mem_cons.mp hx with hx1 | hx2
    · exact Or.inl hx1
    · rcases List.mem_cons.mp hx2 with hx3 | hx4
      · exact Or.inr (by rw [hx3]; exact TReach.refl c.tree)
      · exact Or.inr (collectTree_mem g fuel c.tree walk h3 x hx4)
  · intro pack pf hp
    simp [handleUploadPack, hobj, hp]

/-- Witness for C1 amended on the concrete two-commit repository. -/
theorem c1_amended_walk_witness :
    uploadPackObjects gEx 10 = some ("c2" :: "t2" :: ["t2", "b1"]) ∧
    2 ≤ ("c2" :: "t2" :: ["t2", "b1"]).count "t2" := by
  have h3 : collectTree gEx 10 "t2" = some ["t2", "b1"] := by
    simp [collectTree, collectEntries, gEx]
  exact ⟨(c1_amended_walk gEx 10 "c2" ⟨"t2", ["c1"]⟩ ["t2", "b1"] rfl rfl h3).1,
    (c1_amended_walk gEx 10 "c2" ⟨"t2", ["c1"]⟩ ["t2", "b1"] rfl rfl h3).2.1⟩

/-! ## Pkt-line and protocol claims -/

theorem toHex_mem_hexdigits (n : Nat) :
    ∀ c ∈ toHex n, c ∈ "0123456789abcdef".toList := by
  induction n using Nat.strong_induction_on with
  | _ n ih =>
    intro c hc
    rw [toHex] at hc
    by_cases h : n < 16
    · rw [dif_pos h] at hc
      simp at hc
      subst hc
      exact (by decide : ∀ k, k < 16 → hexDigit k ∈ "0123456789abcdef".toList) n h
    · rw [dif_neg h] at hc
      rcases List.mem_append.mp hc with hc1 | hc2
      · exact ih (n / 16) (Nat.div_lt_self (by omega) (by omega)) c hc1
      · simp at hc2
        subst hc2
        exact (by decide : ∀ k, k < 16 → hexDigit k ∈ "0123456789abcdef".toList)
          (n % 16) (by omega)

/-- C8 amended: for every payload whose frame fits the four-digit
pkt-line range (total length at most 65535), the emitted frame carries a
4-character prefix of lowercase hexadecimal digits that decodes to the
total frame length including the prefix itself, followed by the
unchanged payload; every successful ref advertisement ends with the
flush frame of four zero characters, which decodes to zero; and the
hardcoded service-announcement prefix 001e decodes to the service line
length plus four.  (Beyond that range the prefix overflows four
characters: see the counterexample.) -/
theorem c8_pktline :
    (∀ data : List Char, data.length + 4 ≤ 65535 →
      ((formatPacketLine data).length = data.length + 4 ∧
       decodeHex ((formatPacketLine data).take 4) = (formatPacketLine data).length ∧
       (formatPacketLine data).drop 4 = data ∧
       ∀ c ∈ (formatPacketLine data).take 4, c ∈ "0123456789abcdef".toList)) ∧
    (∀ (p : Plumbing) (fs : MemSt) (resp : List Char),
      handleInfoRefs p fs = .ok resp → ∃ pre, resp = pre ++ flushPkt) ∧
    decodeHex flushPkt = 0 ∧
    decodeHex ('0' :: '0' :: '1' :: 'e' :: []) =
      ("# service=git-upload-pack\n".toList).length + 4 := by
  refine ⟨?_, ?_, by decide, by decide⟩
  · intro data hlen
    have hhex : (toHex (data.length + 4)).length ≤ 4 :=
      toHex_length_le 4 (data.length + 4) (by omega) (by omega)
    have hpad : (pad4 (toHex (data.length + 4))).length = 4 := pad4_length _ hhex
    have htake : (formatPacketLine data).take 4 = pad4 (toHex (data.length + 4)) := by
      unfold formatPacketLine
      exact List.take_left' hpad
    have hflen : (formatPacketLine data).length = data.length + 4 := by
      unfold formatPacketLine
      rw [List.length_append, hpad]
      omega
    refine ⟨hflen, ?_, ?_, ?_⟩
    · rw [htake, hflen, decodeHex_pad4, decode_toHex]
    · unfold formatPacketLine
      exact List.drop_left' hpad
    · intro c hc
      rw [htake] at hc
      unfold pad4 at hc
      rcases List.mem_append.mp hc with hc1 | hc2
      · rw [List.eq_of_mem_replicate hc1]
        decide
      · exact toHex_mem_hexdigits _ c hc2
  · intro p fs resp h
    unfold handleInfoRefs at h
    cases hh : p.resolveHeadMem fs with
    | error e => rw [hh] at h; exact Except.noConfusion h
    | ok head =>
      rw [hh] at h
      cases hb : branchesLines p fs with
      | error e => rw [hb] at h; exact Except.noConfusion h
      | ok blines =>
        rw [hb] at h
        have h2 := Except.ok.inj h
        exact ⟨"001e# service=git-upload-pack\n0000".toList ++
          formatPacketLine (headLineOf head) ++ blines, by rw [← h2]⟩

/-- Witness for C8 at a concrete payload and a concrete advertisement. -/
theorem c8_pktline_witness :
    decodeHex ((formatPacketLine "abc".toList).take 4) =
      (formatPacketLine "abc".toList).length ∧
    (∃ resp, handleInfoRefs advPlumbing memEmpty = .ok resp ∧
      ∃ pre, resp = pre ++ flushPkt) :=
  ⟨((c8_pktline.1 "abc".toList (by decide)).2.1),
   ⟨_, rfl, c8_pktline.2.1 advPlumbing memEmpty _ rfl⟩⟩

/-- C6: the claim is right and the code is wrong.  hasGitRepository never
awaits the promise of the async readdir, so its try/catch cannot observe
the rejection and the build always takes the history-copy path; on an
agent store with no git namespace the awaited readdir inside
copyDirectory then fails and the whole build aborts with one wrapped
error instead of returning a valid empty repository.  Ref advertisement
likewise wraps and rethrows the HEAD resolution failure of an empty
repository instead of advertising an empty ref set. -/
theorem c6_empty_build_fails :
    buildRepository specPlumbing 1 none (sqlInit 0) = .error ⟨.inl FsErr.enoent⟩ ∧
    handleInfoRefs specPlumbing memEmpty = .error ⟨"HEAD unresolved"⟩ := by
  constructor
  · have h : sqlReaddir (sqlInit 0) ["", ".git"] = .error .enoent := by decide
    simp [buildRepository, specPlumbing, templatePhase, hasGitRepository, copyDirectory, h]
  · simp [handleInfoRefs, specPlumbing]

/-- C9: when the session has history (the git namespace copy succeeds)
and resolving the agent HEAD or force-writing the main ref fails, the
build does not fail: it completes and returns exactly the state produced
before the repoint, with no ref update applied. -/
theorem c9_repoint_recovery (p : Plumbing) (fuel : Nat) (template : Option Template)
    (agentFS : SqlSt) (fs1 fs4 fs5 : MemSt)
    (hinit : p.init memEmpty = .ok fs1)
    (htpl : templatePhase p template fs1 = .ok fs4)
    (hcopy : copyDirectory agentFS fuel fs4 ["", ".git"] = .ok fs5)
    (hfail : (∃ e, p.resolveHeadSqlite agentFS = .error e) ∨
      (∃ oid e, p.resolveHeadSqlite agentFS = .ok oid ∧
        p.writeRefMain fs5 oid = .error e)) :
    buildRepository p fuel template agentFS = .ok fs5 := by
  simp only [buildRepository, hinit, htpl, hasGitRepository, if_true, hcopy]
  rcases hfail with ⟨e, he⟩ | ⟨oid, e, hok, he⟩
  · simp only [he]
  · simp only [hok, he]

/-- Witness for C9: a concrete build over an agent store with an empty
git namespace and a plumbing whose HEAD resolution fails completes with
the post-copy (template) state. -/
theorem c9_repoint_recovery_witness :
    buildRepository specPlumbing 1 (some [(["a"], [1])]) agentWithGit =
      .ok (memWriteFile memEmpty ["a"] [1]) :=
  c9_repoint_recovery specPlumbing 1 (some [(["a"], [1])]) agentWithGit
    memEmpty (memWriteFile memEmpty ["a"] [1]) (memWriteFile memEmpty ["a"] [1])
    rfl rfl
    (by
      have h : sqlReaddir agentWithGit ["", ".git"] = .ok [] := by decide
      simp [copyDirectory, h, copyEntries])
    (Or.inl ⟨"HEAD unresolved", rfl⟩)



theorem branchesLines_single (p : Plumbing) (fs : MemSt) (b oid : String)
    (h1 : p.listBranches fs = .ok [b]) (h2 : p.resolveBranch fs b = .ok oid) :
    branchesLines p fs = .ok (formatPacketLine (branchLineOf oid b)) := by
  unfold branchesLines
  simp only [h1, List.foldlM, h2]
  rfl

theorem handleInfoRefs_single (p : Plumbing) (fs : MemSt) (hd b oid : String)
    (h0 : p.resolveHeadMem fs = .ok hd)
    (h1 : p.listBranches fs = .ok [b]) (h2 : p.resolveBranch fs b = .ok oid) :
    handleInfoRefs p fs = .ok ("001e# service=git-upload-pack\n0000".toList ++
      formatPacketLine (headLineOf hd) ++
      formatPacketLine (branchLineOf oid b) ++ flushPkt) := by
  unfold handleInfoRefs
  simp only [h0, branchesLines_single p fs b oid h1 h2]


/-- Length of a four-part append. -/
theorem length_append4 (a b c : List Char) (d : Char) :
    (a ++ b ++ c ++ [d]).length = a.length + b.length + c.length + 1 := by
  simp [List.length_append]
  omega

/-- Evaluation of toString(16) at the overflowing frame length. -/
theorem toHex_65536 : toHex 65536 = ['1', '0', '0', '0', '0'] := by
  rw [toHex]
  norm_num
  rw [toHex]
  norm_num
  rw [toHex]
  norm_num
  rw [toHex]
  norm_num
  rw [toHex]
  norm_num [hexDigit]

/-- C8 counterexample: the ref advertisement of a repository with the
65479-character branch emits that branch's line through formatPacketLine
unmodified, and for that emitted line the length prefix is five
characters — the frame's first four characters decode to 4096, not to
the frame length 65537 — so the claimed framing rule fails on it. -/
theorem c8_counterexample :
    handleInfoRefs longPlumbing memEmpty =
      .ok ("001e# service=git-upload-pack\n0000".toList ++
        formatPacketLine (headLineOf oid40) ++
        formatPacketLine (branchLineOf oid40 longBranch) ++ flushPkt) ∧
    decodeHex ((formatPacketLine (branchLineOf oid40 longBranch)).take 4) = 4096 ∧
    (formatPacketLine (branchLineOf oid40 longBranch)).length = 65537 := by
  have h1 : longBranch.toList.length = 65479 := by
    rw [show longBranch.toList = List.replicate 65479 'a' from rfl, List.length_replicate]
  have h2 : oid40.toList.length = 40 := by decide
  have hbl : (branchLineOf oid40 longBranch).length = 65532 := by
    rw [show branchLineOf oid40 longBranch =
      oid40.toList ++ " refs/heads/".toList ++ longBranch.toList ++ ['\n'] from rfl]
    rw [length_append4, h1, h2]
    decide
  have hf : formatPacketLine (branchLineOf oid40 longBranch) =
      pad4 (toHex ((branchLineOf oid40 longBranch).length + 4)) ++
        branchLineOf oid40 longBranch := rfl
  refine ⟨?_, ?_, ?_⟩
  · exact handleInfoRefs_single longPlumbing memEmpty oid40 longBranch oid40 rfl rfl rfl
  · rw [hf, hbl]
    rw [show (65532 : Nat) + 4 = 65536 from by norm_num, toHex_65536]
    rw [show pad4 ['1', '0', '0', '0', '0'] = ['1', '0', '0', '0', '0'] from rfl]
    rw [List.take_append_of_le_length (by norm_num)]
    decide
  · rw [hf, List.length_append, hbl]
    rw [show (65532 : Nat) + 4 = 65536 from by norm_num, toHex_65536]
    rw [show (pad4 ['1', '0', '0', '0', '0']).length = 5 from rfl]
